import Mathlib

/-!
Shallow embedding of sake.py (a query/inspection tool over experiment-run
records): the field-resolution rule, the best-checkpoint selector, the
textual filter compiler and evaluator, and the presenter truncation policy.
Python runtime values are modelled by the tagged type PyVal (floats as
rationals, datetimes as integer ordinals); fallible Python code (raising
exceptions) is modelled with Except; Python dicts are insertion-ordered
association lists with unique keys.
-/

/-- Model of a Python runtime value as it flows through sake.py:
JSON scalars (None, str, int, float) plus datetime (for the created field).
Floats are modelled as rationals, datetimes as an integer ordinal. -/
inductive PyVal where
  | vNone : PyVal
  | vStr : String → PyVal
  | vInt : Int → PyVal
  | vFloat : Rat → PyVal
  | vDt : Int → PyVal
deriving DecidableEq, Repr

/-- Numeric view of a PyVal (int and float collapse to a rational). -/
def PyVal.asNum : PyVal → Option Rat
  | .vInt n => some (n : Rat)
  | .vFloat q => some q
  | _ => Option.none

/-- Models the Python str() conversion used by f-strings in sake.py.
The float case is an approximation (Rat printing, not Python float repr);
no claim depends on float formatting. -/
def PyVal.pyStr : PyVal → String
  | .vNone => "None"
  | .vStr s => s
  | .vInt n => toString n
  | .vFloat q => toString q
  | .vDt t => toString t

/-- Python dict lookup d[k] as Option (dicts are insertion-ordered
association lists with unique keys; lookup returns the first match). -/
def dictGet (d : List (String × PyVal)) (k : String) : Option PyVal :=
  (d.find? (fun p => p.1 == k)).map (fun p => p.2)

/-- A checkpoint record: step, metrics dict, and the nominated
primary_metric pair (name, goal) as stored in the JSON. -/
structure Checkpoint where
  step : Int
  metrics : List (String × PyVal)
  primary_metric_name : String
  primary_metric_goal : String
deriving DecidableEq, Repr

/-- The (name, goal) pair a checkpoint nominates. -/
def Checkpoint.primaryPair (c : Checkpoint) : String × String :=
  (c.primary_metric_name, c.primary_metric_goal)

/-- An experiment run record as loaded by Experiment.__init__:
id, created timestamp, params dict, optional checkpoint list, command. -/
structure Experiment where
  id : String
  created : Int
  params : List (String × PyVal)
  checkpoints : Option (List Checkpoint)
  command : String
deriving DecidableEq, Repr

/-! ## Python string primitives, modelled by structural recursion so the
kernel can evaluate them on concrete inputs -/

/-- Decimal digit value of a character (code points 48 to 57), none for
a non-digit. -/
def charDigit? (c : Char) : Option Nat :=
  let n := c.toNat
  if 48 ≤ n ∧ n ≤ 57 then some (n - 48) else Option.none

/-- Accumulating decimal reader over a digit list. -/
def digitsAux : List Char → Nat → Option Nat
  | [], acc => some acc
  | c :: rest, acc =>
    match charDigit? c with
    | some d => digitsAux rest (acc * 10 + d)
    | Option.none => Option.none

/-- A nonempty all-digit character list as a natural number. -/
def digitsToNat? : List Char → Option Nat
  | [] => Option.none
  | l => digitsAux l 0

/-- Lexicographic comparison of character lists by code point, as Python
compares str values. -/
def charListLt : List Char → List Char → Bool
  | [], [] => false
  | [], _ :: _ => true
  | _ :: _, [] => false
  | a :: as, b :: bs =>
    if a.toNat < b.toNat then true
    else if b.toNat < a.toNat then false
    else charListLt as bs

/-- Python whitespace test for str.strip and the numeric conversions. -/
def isPySpace (c : Char) : Bool :=
  c == ' ' || c == '\t' || c == '\n' || c == '\r' || c == '\x0b' || c == '\x0c'

/-- Models Python str.strip(): surrounding whitespace removed. -/
def pyStrip (s : String) : String :=
  String.mk (((s.toList.dropWhile isPySpace).reverse.dropWhile isPySpace).reverse)

/-- Worker for pySplit: scan the remaining characters, cutting at every
non-overlapping leftmost occurrence of the separator.  The fuel is the
character count of the whole string, which one-character steps and
separator-length skips never exhaust for a nonempty separator. -/
def pySplitAux (sep : List Char) : Nat → List Char → List Char → List (List Char)
  | _, [], acc => [acc.reverse]
  | 0, rest, acc => [acc.reverse ++ rest]
  | fuel + 1, c :: rest, acc =>
    if List.isPrefixOf sep (c :: rest) then
      acc.reverse :: pySplitAux sep fuel (List.drop sep.length (c :: rest)) []
    else
      pySplitAux sep fuel rest (c :: acc)

/-- Models Python str.split(sep) for a nonempty separator: the string is
cut at every occurrence of the separator (leftmost, non-overlapping), and
a string not containing the separator yields the one-element list of
itself.  sake.py never splits on an empty separator (Python would raise). -/
def pySplit (s sep : String) : List String :=
  (pySplitAux sep.toList s.toList.length s.toList []).map String.mk

/-! ## Python rich comparison on PyVal -/

/-- Lexicographic string order by code points, as Python compares str. -/
def strLt (a b : String) : Bool := charListLt a.toList b.toList

/-- Python a < b on the value types that occur here: numeric pairs compare
numerically (int and float mix), strings lexicographically, datetimes by
ordinal; any other pairing raises TypeError (modelled as error). -/
def pyRichLt : PyVal → PyVal → Except String Bool
  | .vInt a, .vInt b => .ok (decide (a < b))
  | .vInt a, .vFloat b => .ok (decide ((a : Rat) < b))
  | .vFloat a, .vInt b => .ok (decide (a < (b : Rat)))
  | .vFloat a, .vFloat b => .ok (decide (a < b))
  | .vStr a, .vStr b => .ok (strLt a b)
  | .vDt a, .vDt b => .ok (decide (a < b))
  | _, _ => .error "TypeError: unsupported operand types for comparison"

/-- Python a <= b, mirroring pyRichLt. -/
def pyRichLe : PyVal → PyVal → Except String Bool
  | .vInt a, .vInt b => .ok (decide (a ≤ b))
  | .vInt a, .vFloat b => .ok (decide ((a : Rat) ≤ b))
  | .vFloat a, .vInt b => .ok (decide (a ≤ (b : Rat)))
  | .vFloat a, .vFloat b => .ok (decide (a ≤ b))
  | .vStr a, .vStr b => .ok (strLt a b || a == b)
  | .vDt a, .vDt b => .ok (decide (a ≤ b))
  | _, _ => .error "TypeError: unsupported operand types for comparison"

/-- Python a == b: never raises on these types; mixed numeric pairs
compare numerically, any other mixed pairing is simply unequal. -/
def pyEq : PyVal → PyVal → Bool
  | .vInt a, .vInt b => a == b
  | .vInt a, .vFloat b => (a : Rat) == b
  | .vFloat a, .vInt b => a == (b : Rat)
  | .vFloat a, .vFloat b => a == b
  | .vStr a, .vStr b => a == b
  | .vDt a, .vDt b => a == b
  | .vNone, .vNone => true
  | _, _ => false

/-! ## Best-checkpoint selector (Experiment.get_best_checkpoint) -/

/-- One step of the tally loop in get_best_checkpoint: the Python dict
update (metrics[key] += 1 after defaulting to 0), which increments an
existing key in place and otherwise appends the new key at the end. -/
def tallyInsert : List ((String × String) × Nat) → (String × String) →
    List ((String × String) × Nat)
  | [], k => [(k, 1)]
  | p :: rest, k =>
    if p.1 = k then (p.1, p.2 + 1) :: rest else p :: tallyInsert rest k

/-- The tally dict built by the first loop of get_best_checkpoint:
occurrence counts of each distinct (primary name, goal) pair, in
first-encounter order. -/
def tally (cps : List Checkpoint) : List ((String × String) × Nat) :=
  cps.foldl (fun acc c => tallyInsert acc c.primaryPair) []

/-- Stable insertion into a key-sorted list: the new element goes before
the first element of greater-or-equal key, hence after all equal keys
already present (the element being inserted comes earlier in the original
list, so this realises a stable ascending sort). -/
def pyInsert (key : α → Int) (x : α) : List α → List α
  | [] => [x]
  | y :: ys => if key x ≤ key y then x :: y :: ys else y :: pyInsert key x ys

/-- Model of the Python builtin sorted(list, key): a stable sort,
ascending by the integer key. -/
def pySorted (key : α → Int) : List α → List α
  | [] => []
  | x :: xs => pyInsert key x (pySorted key xs)

/-- The winning (name, goal) pair with its count:
sorted(metrics.items(), key=lambda x: x[1])[-1] in get_best_checkpoint.
Indexing [-1] of an empty list raises IndexError, modelled by none. -/
def winningPair (cps : List Checkpoint) : Option ((String × String) × Nat) :=
  (pySorted (fun p => (p.2 : Int)) (tally cps)).getLast?

/-- The scan loop of get_best_checkpoint over checkpoints[1:].
Arguments: goal and metric name, running best value and its index, the
absolute index i of the head of the remaining list.  A missing metric key
raises KeyError and a cross-type comparison raises TypeError, both
modelled as errors.  A goal that is neither maximize nor minimize leaves
the running best untouched (both Python conditions are false). -/
def bestLoop (goal name : String) : PyVal → Nat → Nat → List Checkpoint →
    Except String (PyVal × Nat)
  | best, bidx, _, [] => .ok (best, bidx)
  | best, bidx, i, c :: rest =>
    if goal = "maximize" then
      match dictGet c.metrics name with
      | Option.none => .error ("KeyError: " ++ name)
      | some v =>
        match pyRichLt best v with
        | .error e => .error e
        | .ok true => bestLoop goal name v i (i + 1) rest
        | .ok false => bestLoop goal name best bidx (i + 1) rest
    else if goal = "minimize" then
      match dictGet c.metrics name with
      | Option.none => .error ("KeyError: " ++ name)
      | some v =>
        match pyRichLt v best with
        | .error e => .error e
        | .ok true => bestLoop goal name v i (i + 1) rest
        | .ok false => bestLoop goal name best bidx (i + 1) rest
    else bestLoop goal name best bidx (i + 1) rest

/-- The body of Experiment.get_best_checkpoint on a checkpoint list:
pick the winning (name, goal) pair from the tally, seed the scan with
checkpoint 0, then scan checkpoints[1:] replacing the running best only
on strict improvement; returns (name, checkpoints[best_index]). -/
def selectBestList (cps : List Checkpoint) : Except String (String × Checkpoint) :=
  match winningPair cps with
  | Option.none => .error "IndexError: list index out of range"
  | some ((name, goal), _) =>
    match cps with
    | [] => .error "IndexError: list index out of range"
    | c0 :: rest =>
      match dictGet c0.metrics name with
      | Option.none => .error ("KeyError: " ++ name)
      | some v0 =>
        match bestLoop goal name v0 0 1 rest with
        | .error e => .error e
        | .ok (_, bidx) =>
          match cps.get? bidx with
          | some c => .ok (name, c)
          | Option.none => .error "IndexError: list index out of range"

/-- Experiment.get_best_checkpoint: iterating over a None checkpoint list
raises TypeError. -/
def Experiment.get_best_checkpoint (e : Experiment) :
    Except String (String × Checkpoint) :=
  match e.checkpoints with
  | Option.none => .error "TypeError: NoneType object is not iterable"
  | some cps => selectBestList cps

/-! ## Field resolution (Experiment.get_field) -/

/-- The scan over all checkpoints in get_field: return the first
checkpoint metric bound to the field name, in sequence order. -/
def findInCheckpoints (cps : List Checkpoint) (field : String) : Option PyVal :=
  match cps with
  | [] => Option.none
  | c :: rest =>
    match dictGet c.metrics field with
    | some v => some v
    | Option.none => findInCheckpoints rest field

/-- Experiment.get_field: params first; if checkpoints is None return the
caller-supplied default; otherwise consult the best checkpoint (whose
selection can raise), then scan every checkpoint, then the default. -/
def Experiment.get_field (e : Experiment) (field : String) (default_val : PyVal) :
    Except String PyVal :=
  match dictGet e.params field with
  | some v => .ok v
  | Option.none =>
    match e.checkpoints with
    | Option.none => .ok default_val
    | some cps =>
      match e.get_best_checkpoint with
      | .error err => .error err
      | .ok (_, best_checkpoint) =>
        match dictGet best_checkpoint.metrics field with
        | some v => .ok v
        | Option.none =>
          match findInCheckpoints cps field with
          | some v => .ok v
          | Option.none => .ok default_val

/-! ## Presenter (Experiment._present and friends) -/

/-- Index of the first occurrence of a character in a string, as Python
str.index (none models the ValueError raised when absent). -/
def strCharIndex (s : String) (c : Char) : Option Nat :=
  s.toList.findIdx? (fun d => d = c)

/-- The inner maybe_trim of Experiment._present: a line longer than 60
characters is cut at max(60 - 3, index of first colon) and suffixed with
an ellipsis; str.index raises ValueError when the line has no colon. -/
def maybe_trim (value : String) : Except String String :=
  let MAX_LENGTH := 60
  if MAX_LENGTH < value.length then
    match strCharIndex value ':' with
    | Option.none => .error "ValueError: substring not found"
    | some idx =>
      let split_idx := max (MAX_LENGTH - 3) idx
      .ok ((value.take split_idx) ++ "...")
  else .ok value

/-- The row-limit step of Experiment._present: when the number of lines
reaches num_values, keep the first num_values + 1 lines and append a
literal ellipsis marker line. -/
def trimRows (values : List String) (num_values : Nat) : List String :=
  if num_values ≤ values.length then values.take (num_values + 1) ++ ["..."]
  else values

/-- Experiment._present before joining: resolve the None num_values to 5,
apply the row limit, then maybe_trim every line (the first ValueError
propagates). -/
def presentLines (values : List String) (num_values : Option Nat) :
    Except String (List String) :=
  (trimRows values (num_values.getD 5)).mapM maybe_trim

/-- Experiment._present: the trimmed lines joined with newlines. -/
def Experiment._present (values : List String) (num_values : Option Nat) :
    Except String String :=
  (presentLines values num_values).map (fun vs => String.intercalate "\n" vs)

/-- Experiment._select: keep only the items whose key is in the select
list, unless select is None or matches no key at all; the flag records
whether anything was actually filtered out. -/
def Experiment._select (values : List (String × PyVal)) (select : Option (List String)) :
    List (String × PyVal) × Bool :=
  match select with
  | Option.none => (values, false)
  | some sel =>
    if sel.all (fun name => decide (dictGet values name = Option.none)) then
      (values, false)
    else
      let items := values.filter (fun x => sel.contains x.1)
      (items, decide (values.length ≠ items.length))

/-- Experiment._present_value: the float-formatting branch is dead code
(if False and ...), so this is the identity. -/
def Experiment._present_value (v : PyVal) : PyVal := v

/-- Experiment.get_metrics: the None checkpoint list renders as
"0 checkpoints"; otherwise the best checkpoint (whose selection can
raise) is selected, its metrics are stably sorted so that the winning
metric name comes first, prefixed with a synthetic step line, and
presented under the row limit. -/
def Experiment.get_metrics (e : Experiment) (select : Option (List String))
    (show_all : Bool) : Except String String :=
  match e.checkpoints with
  | Option.none => .ok "0 checkpoints"
  | some _ =>
    match e.get_best_checkpoint with
    | .error err => .error err
    | .ok (name, checkpoint) =>
      let (items, selected) := Experiment._select checkpoint.metrics select
      let metrics := pySorted (fun x => if x.1 = name then (-1 : Int) else 0) items
      let step := checkpoint.step
      let values := (s!"step {step} (best)") ::
        metrics.map (fun kv =>
          let key := kv.1
          let pv := (Experiment._present_value kv.2).pyStr
          s!"{key}: {pv}")
      let num_values : Option Nat :=
        if show_all then some 10000
        else if selected then some items.length
        else Option.none
      Experiment._present values num_values

/-! ## Filter compiler (compile_filter) and evaluator (Filter.__call__) -/

/-- Comparison operator tag of a compiled leaf filter. -/
inductive Cmp where
  | inOp : Cmp
  | ne : Cmp
  | le : Cmp
  | ge : Cmp
  | lt : Cmp
  | eq : Cmp
  | gt : Cmp
deriving DecidableEq, Repr

/-- A compiled filter expression: a leaf comparison (comparator, field
name, literal string) or a short-circuit binary or of two sub-filters. -/
inductive FilterExpr where
  | leaf : Cmp → String → String → FilterExpr
  | orE : FilterExpr → FilterExpr → FilterExpr
deriving DecidableEq, Repr

/-- The Python ValueError raised by a two-variable unpacking of a split
with more than two parts. -/
def unpackError : String := "ValueError: too many values to unpack"

/-- compile_filter with explicit fuel for the or-recursion.  Each operator
token is tried in source order; the membership test and the two-variable
unpacking of format.split(token) are modelled by matching on
pySplit, whose result has one part exactly when the token is
absent, two parts when it occurs once, and more parts otherwise (Python
str.split splits at every occurrence, so three or more parts raise
ValueError at the unpacking). -/
def compileFilterF : Nat → String → Except String FilterExpr
  | 0, _ => .error "fuel exhausted"
  | fuel + 1, format =>
    match pySplit format " or " with
    | [lhs_format, rhs_format] =>
      match compileFilterF fuel lhs_format with
      | .error e => .error e
      | .ok lhs =>
        match compileFilterF fuel rhs_format with
        | .error e => .error e
        | .ok rhs => .ok (.orE lhs rhs)
    | _ :: _ :: _ => .error unpackError
    | _ =>
    match pySplit format " in " with
    | [value, field] => .ok (.leaf .inOp (pyStrip field) (pyStrip value))
    | _ :: _ :: _ => .error unpackError
    | _ =>
    match pySplit format "!=" with
    | [field, value] => .ok (.leaf .ne (pyStrip field) (pyStrip value))
    | _ :: _ :: _ => .error unpackError
    | _ =>
    match pySplit format "<=" with
    | [field, value] => .ok (.leaf .le (pyStrip field) (pyStrip value))
    | _ :: _ :: _ => .error unpackError
    | _ =>
    match pySplit format ">=" with
    | [field, value] => .ok (.leaf .ge (pyStrip field) (pyStrip value))
    | _ :: _ :: _ => .error unpackError
    | _ =>
    match pySplit format "<" with
    | [field, value] => .ok (.leaf .lt (pyStrip field) (pyStrip value))
    | _ :: _ :: _ => .error unpackError
    | _ =>
    match pySplit format "=" with
    | [field, value] => .ok (.leaf .eq (pyStrip field) (pyStrip value))
    | _ :: _ :: _ => .error unpackError
    | _ =>
    match pySplit format ">" with
    | [field, value] => .ok (.leaf .gt (pyStrip field) (pyStrip value))
    | _ :: _ :: _ => .error unpackError
    | _ => .error ("invalid filter format " ++ format)

/-- compile_filter: the fuel format.length + 1 always suffices, since each
or-split strictly shortens both halves by at least the token length. -/
def compile_filter (format : String) : Except String FilterExpr :=
  compileFilterF (format.length + 1) format

/-- try_fallback: call the conversion on the literal and fall back to the
raw string when it raises. -/
def try_fallback (func : String → Option PyVal) (default_val : String) : PyVal :=
  match func default_val with
  | some v => v
  | Option.none => .vStr default_val

/-- Models int(str): surrounding whitespace stripped, optional sign,
decimal digits; anything else raises (none). -/
def pyIntParse (s : String) : Option Int :=
  match (pyStrip s).toList with
  | '-' :: rest => (digitsToNat? rest).map (fun n => -(n : Int))
  | '+' :: rest => (digitsToNat? rest).map (fun n => (n : Int))
  | t => (digitsToNat? t).map (fun n => (n : Int))

/-- Unsigned decimal with optional fractional part, as a rational. -/
def parseDecimal (s : String) : Option Rat :=
  match pySplit s "." with
  | [a] => (digitsToNat? a.toList).map (fun n => (n : Rat))
  | [a, b] =>
    match digitsToNat? a.toList, digitsToNat? b.toList with
    | some ia, some ib => some ((ia : Rat) + (ib : Rat) / ((10 : Rat) ^ b.length))
    | _, _ => Option.none
  | _ => Option.none

/-- Models float(str): optional sign around a decimal literal; anything
else raises (none).  Floats are modelled as rationals. -/
def pyFloatParse (s : String) : Option Rat :=
  match (pyStrip s).toList with
  | '-' :: rest => (parseDecimal (String.mk rest)).map (fun q => -q)
  | '+' :: rest => parseDecimal (String.mk rest)
  | t => parseDecimal (String.mk t)

/-- Modelled from the spec: the external dateutil day-first parser used
for created comparisons (an excluded collaborator of the repository).
Accepts day/month/year digit triples and yields a comparable ordinal;
anything else raises (none).  No claim depends on its internals. -/
def parseDateDayFirst (s : String) : Option Int :=
  match pySplit s "/" with
  | [d, m, y] =>
    match digitsToNat? d.toList, digitsToNat? m.toList, digitsToNat? y.toList with
    | some dd, some mm, some yy => some ((yy : Int) * 10000 + (mm : Int) * 100 + (dd : Int))
    | _, _, _ => Option.none
  | _ => Option.none

/-- The conversion convert_func = type(field) of Filter.__call__: calling
the runtime type of the resolved field on the literal string.  NoneType
and datetime called on a string raise; str is the identity; int and float
parse. -/
def typeConvert (fieldv : PyVal) : String → Option PyVal :=
  match fieldv with
  | .vNone => fun _ => Option.none
  | .vStr _ => fun s => some (.vStr s)
  | .vInt _ => fun s => (pyIntParse s).map .vInt
  | .vFloat _ => fun s => (pyFloatParse s).map .vFloat
  | .vDt _ => fun _ => Option.none

/-- Substring membership b in a over strings (True for the empty b). -/
def strContains (a b : String) : Bool :=
  (List.range (a.toList.length + 1)).any
    (fun i => List.isPrefixOf b.toList (a.toList.drop i))

/-- Python b in a as used by the in comparator: substring test on
strings, TypeError on any other left operand. -/
def pyIn (a b : PyVal) : Except String Bool :=
  match a, b with
  | .vStr sa, .vStr sb => .ok (strContains sa sb)
  | _, _ => .error "TypeError: argument of type is not iterable"

/-- Apply the comparator lambda of a compiled leaf to (field, literal):
the Except result models a possible TypeError inside the comparison. -/
def pyComp (c : Cmp) (a b : PyVal) : Except String Bool :=
  match c with
  | .inOp => pyIn a b
  | .ne => .ok (!pyEq a b)
  | .le => pyRichLe a b
  | .ge => pyRichLe b a
  | .lt => pyRichLt a b
  | .eq => .ok (pyEq a b)
  | .gt => pyRichLt b a

/-- The try/except around the comparator in Filter.__call__: any raised
comparison error yields False, never an error. -/
def applyComp (c : Cmp) (a b : PyVal) : Bool :=
  match pyComp c a b with
  | .ok r => r
  | .error _ => false

/-- A compiled leaf filter, as the Filter class of sake.py stores it
(named SakeFilter here because Mathlib already declares Filter). -/
structure SakeFilter where
  comp : Cmp
  field : String
  value : String
deriving DecidableEq, Repr

/-- Checkpoint count with 0 for an absent list, as Filter.__call__
computes for the synthetic n_checkpoints field. -/
def nCheckpoints (e : Experiment) : Nat :=
  match e.checkpoints with
  | some cks => cks.length
  | Option.none => 0

/-- Filter.__call__: the synthetic fields created and n_checkpoints are
special-cased with their own conversion functions; any other field goes
through get_field, whose exceptions (from best-checkpoint selection)
propagate uncaught.  The literal conversion falls back to the raw string
and the comparison falls back to False. -/
def SakeFilter.call (f : SakeFilter) (e : Experiment) : Except String Bool :=
  if f.field = "created" then
    let field := PyVal.vDt e.created
    let comp_value := try_fallback (fun s => (parseDateDayFirst s).map .vDt) f.value
    .ok (applyComp f.comp field comp_value)
  else if f.field = "n_checkpoints" then
    let field := PyVal.vInt (nCheckpoints e)
    let comp_value := try_fallback (fun s => (pyIntParse s).map .vInt) f.value
    .ok (applyComp f.comp field comp_value)
  else
    match e.get_field f.field PyVal.vNone with
    | .error err => .error err
    | .ok field =>
      let comp_value := try_fallback (typeConvert field) f.value
      .ok (applyComp f.comp field comp_value)

/-- Evaluation of a compiled filter expression: leaves evaluate through
Filter.__call__, or is short-circuit (the right side is not evaluated
when the left returns True). -/
def FilterExpr.eval : FilterExpr → Experiment → Except String Bool
  | .leaf c f v, e => SakeFilter.call ⟨c, f, v⟩ e
  | .orE l r, e =>
    match l.eval e with
    | .error err => .error err
    | .ok true => .ok true
    | .ok false => r.eval e

/-- The sort key of list_experiments when --sort is given:
expe.get_field(args.sort, 0.0), with no special-casing of the synthetic
fields. -/
def sortKey (e : Experiment) (sortField : String) : Except String PyVal :=
  e.get_field sortField (.vFloat 0)

/-! ## Claims about empty or absent checkpoint lists (C1) -/

/-- C1, counterexample: the claim special-cases an EMPTY checkpoint list,
but the code only special-cases an absent (None) one.  On a run whose
checkpoint list is present but empty, field resolution and the metric
presenter both invoke the best-checkpoint selector, which fails with an
IndexError instead of returning the default or rendering 0 checkpoints. -/
theorem C1_counterexample :
    Experiment.get_field ⟨"e1", 0, [], some [], "train.py"⟩ "x" PyVal.vNone
      = .error "IndexError: list index out of range" ∧
    Experiment.get_metrics ⟨"e1", 0, [], some [], "train.py"⟩ Option.none false
      = .error "IndexError: list index out of range" := by
  constructor <;> rfl

/-- C1, amended: only an absent (None) checkpoint list is special-cased.
For every run whose checkpoint list is absent, the best-checkpoint
selector is never invoked: field resolution returns the caller-supplied
default (when the field is not a param) and the presenter renders the
metric block as the string 0 checkpoints. -/
theorem C1_no_checkpoints (e : Experiment) (field : String) (d : PyVal)
    (hck : e.checkpoints = Option.none)
    (hfield : dictGet e.params field = Option.none) :
    e.get_field field d = .ok d ∧
    ∀ (sel : Option (List String)) (sa : Bool),
      e.get_metrics sel sa = .ok "0 checkpoints" := by
  constructor
  · simp only [Experiment.get_field, hfield, hck]
  · intro sel sa
    simp only [Experiment.get_metrics, hck]

/-- C1, witness: the amended theorem applied to a concrete run with an
absent checkpoint list. -/
theorem C1_no_checkpoints_witness :
    Experiment.get_field ⟨"e1", 5, [], Option.none, "c"⟩ "x" (PyVal.vInt 7)
      = .ok (PyVal.vInt 7) ∧
    Experiment.get_metrics ⟨"e1", 5, [], Option.none, "c"⟩ Option.none false
      = .ok "0 checkpoints" := by
  have h := C1_no_checkpoints ⟨"e1", 5, [], Option.none, "c"⟩ "x" (PyVal.vInt 7) rfl rfl
  exact ⟨h.1, h.2 Option.none false⟩

/-! ## Claim about the selector reading a possibly absent key (C10) -/

/-- C10: on a checkpoint sequence whose winning primary metric name is
absent from the first checkpoint (here a metric added mid-training), the
selector fails with a KeyError lookup error instead of returning a
checkpoint: it unconditionally reads the winning metric from checkpoint 0
with no absent-key handling. -/
theorem C10_selector_keyerror :
    selectBestList
      [⟨0, [], "acc", "maximize"⟩, ⟨1, [("acc", PyVal.vFloat 1)], "acc", "maximize"⟩]
      = .error "KeyError: acc" := by rfl

/-! ## Claim about the line-width trim (C9) -/

/-- C9: every display line longer than 60 characters whose text contains
a colon is cut at index max(60 - 3, index of the first colon) with an
ellipsis appended; the cut point is never before 57 and is at or after
the first colon, so the field name before the colon is never truncated. -/
theorem C9_trim_cut (value : String) (idx : Nat)
    (hlen : 60 < value.length)
    (hidx : strCharIndex value ':' = some idx) :
    maybe_trim value = .ok (value.take (max (60 - 3) idx) ++ "...") ∧
    57 ≤ max (60 - 3) idx ∧ idx ≤ max (60 - 3) idx := by
  refine ⟨?_, Nat.le_max_left _ _, Nat.le_max_right _ _⟩
  simp only [maybe_trim, if_pos hlen, hidx]

/-- C9, witness: the trim theorem applied to a concrete 67-character line
whose first colon sits at index 1. -/
theorem C9_trim_cut_witness :
    maybe_trim "k:aaaaaaaaaaaaaaaaaaaaaaaaaaaaaaaaaaaaaaaaaaaaaaaaaaaaaaaaaaaaaaaaa"
      = .ok ("k:aaaaaaaaaaaaaaaaaaaaaaaaaaaaaaaaaaaaaaaaaaaaaaaaaaaaaaaaaaaaaaaaa".take
          (max (60 - 3) 1) ++ "...") ∧
    57 ≤ max (60 - 3) 1 ∧ 1 ≤ max (60 - 3) 1 :=
  C9_trim_cut "k:aaaaaaaaaaaaaaaaaaaaaaaaaaaaaaaaaaaaaaaaaaaaaaaaaaaaaaaaaaaaaaaaa" 1
    (by decide) (by decide)

/-! ## Claim about presenter idempotence (C4) -/

/-- A line of at most 60 characters passes through maybe_trim unchanged. -/
theorem maybe_trim_short (v : String) (h : v.length ≤ 60) :
    maybe_trim v = .ok v := by
  simp only [maybe_trim, if_neg (by omega : ¬ 60 < v.length)]

/-- Mapping maybe_trim over lines it leaves unchanged is the identity. -/
theorem mapM_maybe_trim (l : List String) (h : ∀ v ∈ l, maybe_trim v = .ok v) :
    l.mapM maybe_trim = .ok l := by
  induction l with
  | nil => rfl
  | cons a t ih =>
    have ha := h a (List.mem_cons_self a t)
    have ht := ih (fun v hv => h v (List.mem_cons_of_mem a hv))
    simp only [List.mapM_cons, ha, ht]
    rfl

/-- Every line of the row-limited list is an original line or the
ellipsis marker. -/
theorem trimRows_mem (vs : List String) (n : Nat) (x : String)
    (hx : x ∈ trimRows vs n) : x ∈ vs ∨ x = "..." := by
  unfold trimRows at hx
  by_cases h : n ≤ vs.length
  · rw [if_pos h] at hx
    rcases List.mem_append.mp hx with h1 | h1
    · exact Or.inl (List.take_subset _ _ h1)
    · right
      simpa using h1
  · rw [if_neg h] at hx
    exact Or.inl hx

/-- The row limit is idempotent except exactly at the threshold: when the
line count is not 5, applying it twice equals applying it once. -/
theorem trimRows_stable (vs : List String) (h5 : vs.length ≠ 5) :
    trimRows (trimRows vs 5) 5 = trimRows vs 5 := by
  by_cases h : 5 ≤ vs.length
  · have heq : trimRows vs 5 = vs.take (5 + 1) ++ ["..."] := by
      unfold trimRows
      rw [if_pos h]
    have htake : (vs.take (5 + 1)).length = 5 + 1 := by
      simp only [List.length_take]
      omega
    rw [heq]
    unfold trimRows
    rw [if_pos (by simp [htake] : 5 ≤ (vs.take (5 + 1) ++ ["..."]).length)]
    rw [List.take_append_eq_append_take, htake]
    simp [List.take_take]
  · have heq : trimRows vs 5 = vs := by
      unfold trimRows
      rw [if_neg h]
    rw [heq]
    unfold trimRows
    rw [if_neg h]

/-- C4, counterexample: at exactly five lines the first presentation keeps
all five lines and appends the ellipsis marker, and presenting that output
again appends a second marker, so the row-limit truncation is not
idempotent and a double ellipsis occurs. -/
theorem C4_counterexample :
    Experiment._present ["a", "b", "c", "d", "e"] Option.none
      = .ok "a\nb\nc\nd\ne\n..." ∧
    Experiment._present ["a", "b", "c", "d", "e", "..."] Option.none
      = .ok "a\nb\nc\nd\ne\n...\n..." := by
  constructor <;> rfl

/-- C4, amended: for every list of display lines, each at most 60
characters, whose line count is not exactly the threshold 5, presenting
is idempotent: the output lines are the once-row-limited lines, and
presenting that output again returns it unchanged, with at most one
ellipsis marker appended. -/
theorem C4_present_idempotent (vs : List String)
    (h60 : ∀ v ∈ vs, v.length ≤ 60) (h5 : vs.length ≠ 5) :
    presentLines vs Option.none = .ok (trimRows vs 5) ∧
    presentLines (trimRows vs 5) Option.none = .ok (trimRows vs 5) := by
  have hall : ∀ v ∈ trimRows vs 5, maybe_trim v = .ok v := by
    intro v hv
    rcases trimRows_mem vs 5 v hv with h | h
    · exact maybe_trim_short v (h60 v h)
    · rw [h]
      rfl
  constructor
  · unfold presentLines
    exact mapM_maybe_trim _ hall
  · unfold presentLines
    simp only [Option.getD]
    rw [trimRows_stable vs h5]
    exact mapM_maybe_trim _ hall

/-- C4, witness: the amended idempotence theorem applied to a concrete
three-line input. -/
theorem C4_present_idempotent_witness :
    presentLines ["a", "b", "c"] Option.none = .ok (trimRows ["a", "b", "c"] 5) ∧
    presentLines (trimRows ["a", "b", "c"] 5) Option.none
      = .ok (trimRows ["a", "b", "c"] 5) :=
  C4_present_idempotent ["a", "b", "c"] (by decide) (by decide)

/-! ## Claims about the filter compiler (C7 and C2) -/

/-- C7: the operator dispatch of the filter compiler tries the tokens in
the fixed source order or, in, !=, <=, >=, <, =, >, so a compound
operator always wins over its strict substrings: x<=5 splits at <= into
field x and literal 5, and in general any expression free of the
earlier tokens whose text splits exactly once at <= (resp. >=) compiles
to the corresponding le (resp. ge) leaf, never to a bare <, = or > one. -/
theorem C7_dispatch_order :
    compile_filter "x<=5" = .ok (.leaf .le "x" "5") ∧
    (∀ (s f v : String),
      pySplit s " or " = [s] → pySplit s " in " = [s] → pySplit s "!=" = [s] →
      pySplit s "<=" = [f, v] →
      compile_filter s = .ok (.leaf .le (pyStrip f) (pyStrip v))) ∧
    (∀ (s f v : String),
      pySplit s " or " = [s] → pySplit s " in " = [s] → pySplit s "!=" = [s] →
      pySplit s "<=" = [s] → pySplit s ">=" = [f, v] →
      compile_filter s = .ok (.leaf .ge (pyStrip f) (pyStrip v))) := by
  refine ⟨by rfl, ?_, ?_⟩
  · intro s f v h1 h2 h3 h4
    simp only [compile_filter, compileFilterF, h1, h2, h3, h4]
  · intro s f v h1 h2 h3 h4 h5
    simp only [compile_filter, compileFilterF, h1, h2, h3, h4, h5]

/-- C7, witness: the general dispatch statement applied to a concrete
expression containing both a compound operator and its substrings. -/
theorem C7_dispatch_order_witness :
    compile_filter "a <= b2" = .ok (.leaf .le "a" "b2") := by
  have h := C7_dispatch_order.2.1 "a <= b2" "a " " b2" (by rfl) (by rfl) (by rfl) (by rfl)
  exact h

/-- C2, counterexample: Python str.split splits at every occurrence, not
only the first, and the two-variable unpacking then raises ValueError; so
compiling a=1 or b=2 or c=3 fails with the unpack error instead of
producing the right-nested or predicate, and a leaf whose operator token
occurs twice (x=1=2) also fails instead of splitting at the first
occurrence. -/
theorem C2_counterexample :
    compile_filter "a=1 or b=2 or c=3" = .error unpackError ∧
    compile_filter "x=1=2" = .error unpackError := by
  constructor <;> rfl

/-- C2, amended: the compiler splits at EVERY occurrence of the matched
operator token and then unpacks exactly two halves: when the or token
occurs more than once the compile fails with the unpack ValueError, and a
comparison leaf splits into (field name, literal), both trimmed, exactly
when its operator token occurs once (shown for =; a leaf with a repeated
token likewise fails with the unpack error). -/
theorem C2_split_once :
    (∀ s : String, 2 < (pySplit s " or ").length →
      compile_filter s = .error unpackError) ∧
    (∀ (s f v : String),
      pySplit s " or " = [s] → pySplit s " in " = [s] → pySplit s "!=" = [s] →
      pySplit s "<=" = [s] → pySplit s ">=" = [s] → pySplit s "<" = [s] →
      pySplit s "=" = [f, v] →
      compile_filter s = .ok (.leaf .eq (pyStrip f) (pyStrip v))) ∧
    (∀ s : String,
      pySplit s " or " = [s] → pySplit s " in " = [s] → pySplit s "!=" = [s] →
      pySplit s "<=" = [s] → pySplit s ">=" = [s] → pySplit s "<" = [s] →
      2 < (pySplit s "=").length →
      compile_filter s = .error unpackError) := by
  refine ⟨?_, ?_, ?_⟩
  · intro s h
    match hsp : pySplit s " or " with
    | [] => rw [hsp] at h; simp at h
    | [a] => rw [hsp] at h; simp at h
    | [a, b] => rw [hsp] at h; simp at h
    | a :: b :: c :: t =>
      simp only [compile_filter, compileFilterF, hsp]
  · intro s f v h1 h2 h3 h4 h5 h6 h7
    simp only [compile_filter, compileFilterF, h1, h2, h3, h4, h5, h6, h7]
  · intro s h1 h2 h3 h4 h5 h6 h
    match hsp : pySplit s "=" with
    | [] => rw [hsp] at h; simp at h
    | [a] => rw [hsp] at h; simp at h
    | [a, b] => rw [hsp] at h; simp at h
    | a :: b :: c :: t =>
      simp only [compile_filter, compileFilterF, h1, h2, h3, h4, h5, h6, hsp]

/-- C2, witness: the amended single-occurrence leaf statement applied to
a concrete equality expression. -/
theorem C2_split_once_witness :
    compile_filter "a = 1" = .ok (.leaf .eq "a" "1") := by
  have h := C2_split_once.2.1 "a = 1" "a " " 1" (by rfl) (by rfl) (by rfl) (by rfl)
    (by rfl) (by rfl) (by rfl)
  exact h

/-! ## Claim about the synthetic fields created and n_checkpoints (C3) -/

/-- C3, counterexample: in the sort path of list_experiments the field is
resolved with the ordinary params-then-metrics rule (get_field with
default 0.0) and NOT special-cased, so on a run holding a param literally
named created the sort key for created is that param value 42, not the
stored creation timestamp 0. -/
theorem C3_counterexample :
    sortKey ⟨"e1", 0, [("created", PyVal.vInt 42)], Option.none, "c"⟩ "created"
      = .ok (PyVal.vInt 42) ∧
    Experiment.created ⟨"e1", 0, [("created", PyVal.vInt 42)], Option.none, "c"⟩ = 0 := by
  constructor <;> rfl

/-- C3, amended: the synthetic special-casing of created and
n_checkpoints lives only in filter evaluation: there a created filter
depends only on the stored timestamp and an n_checkpoints filter only on
the checkpoint count, while the sort key of list_experiments resolves
every field, created included, through the ordinary params-then-metrics
rule (a param named created shadows the timestamp). -/
theorem C3_synthetic_fields :
    (∀ (c : Cmp) (v : String) (e₁ e₂ : Experiment), e₁.created = e₂.created →
      SakeFilter.call ⟨c, "created", v⟩ e₁ = SakeFilter.call ⟨c, "created", v⟩ e₂) ∧
    (∀ (c : Cmp) (v : String) (e₁ e₂ : Experiment), nCheckpoints e₁ = nCheckpoints e₂ →
      SakeFilter.call ⟨c, "n_checkpoints", v⟩ e₁ = SakeFilter.call ⟨c, "n_checkpoints", v⟩ e₂) ∧
    (∀ (e : Experiment) (v : PyVal) (rest : List (String × PyVal)),
      e.params = ("created", v) :: rest → sortKey e "created" = .ok v) := by
  refine ⟨?_, ?_, ?_⟩
  · intro c v e₁ e₂ h
    simp [SakeFilter.call, h]
  · intro c v e₁ e₂ h
    simp [SakeFilter.call, h]
  · intro e v rest h
    simp only [sortKey, Experiment.get_field, h, dictGet, List.find?]
    rfl

/-- C3, witness: the amended theorem applied to concrete runs. -/
theorem C3_synthetic_fields_witness :
    SakeFilter.call ⟨Cmp.eq, "created", "7"⟩ ⟨"a", 7, [], Option.none, "c"⟩
      = SakeFilter.call ⟨Cmp.eq, "created", "7"⟩ ⟨"b", 7, [("z", PyVal.vInt 1)], some [], "d"⟩ ∧
    SakeFilter.call ⟨Cmp.lt, "n_checkpoints", "2"⟩ ⟨"a", 1, [], Option.none, "c"⟩
      = SakeFilter.call ⟨Cmp.lt, "n_checkpoints", "2"⟩ ⟨"b", 9, [], Option.none, "d"⟩ ∧
    sortKey ⟨"e2", 3, [("created", PyVal.vStr "hi")], Option.none, "c"⟩ "created"
      = .ok (PyVal.vStr "hi") := by
  refine ⟨?_, ?_, ?_⟩
  · exact C3_synthetic_fields.1 Cmp.eq "7" _ _ rfl
  · exact C3_synthetic_fields.2.1 Cmp.lt "2" _ _ rfl
  · exact C3_synthetic_fields.2.2 _ (PyVal.vStr "hi") [] rfl

/-! ## Claim about error recovery in filter evaluation (C8) -/

/-- C8, counterexample: filter evaluation can propagate an error to the
caller after all.  On a run with an empty-but-present checkpoint list,
resolving an ordinary field inside Filter call invokes the best-checkpoint
selector, whose IndexError escapes the evaluation uncaught (only the
literal coercion and the comparator application are guarded). -/
theorem C8_counterexample :
    SakeFilter.call ⟨Cmp.eq, "x", "1"⟩ ⟨"e1", 0, [], some [], "c"⟩
      = .error "IndexError: list index out of range" := by rfl

/-- C8, amended: whenever field resolution itself succeeds, leaf filter
evaluation returns without error: the literal is coerced to the resolved
value's runtime type with a fallback to the raw string when the coercion
fails, and a comparator that raises yields False rather than an error;
the created and n_checkpoints branches never consult field resolution and
always return a Boolean.  Errors raised during field resolution itself,
however, do propagate to the caller. -/
theorem C8_eval_recovery (f : SakeFilter) (e : Experiment) (v : PyVal)
    (hc : f.field ≠ "created") (hn : f.field ≠ "n_checkpoints")
    (hres : e.get_field f.field PyVal.vNone = .ok v) :
    SakeFilter.call f e
      = .ok (applyComp f.comp v (try_fallback (typeConvert v) f.value)) ∧
    (typeConvert v f.value = Option.none →
      try_fallback (typeConvert v) f.value = .vStr f.value) ∧
    (∀ msg, pyComp f.comp v (try_fallback (typeConvert v) f.value) = .error msg →
      applyComp f.comp v (try_fallback (typeConvert v) f.value) = false) ∧
    (∀ (g : SakeFilter) (e' : Experiment),
      g.field = "created" ∨ g.field = "n_checkpoints" →
      ∃ b, SakeFilter.call g e' = .ok b) := by
  refine ⟨?_, ?_, ?_, ?_⟩
  · simp only [SakeFilter.call, if_neg hc, if_neg hn, hres]
  · intro h
    simp only [try_fallback, h]
  · intro msg h
    simp only [applyComp, h]
  · intro g e' hg
    rcases hg with h | h
    · refine ⟨applyComp g.comp (PyVal.vDt e'.created)
        (try_fallback (fun s => Option.map PyVal.vDt (parseDateDayFirst s)) g.value), ?_⟩
      simp only [SakeFilter.call, if_pos h]
    · have h' : ¬ (g.field = "created") := by
        rw [h]
        decide
      refine ⟨applyComp g.comp (PyVal.vInt (nCheckpoints e'))
        (try_fallback (fun s => Option.map PyVal.vInt (pyIntParse s)) g.value), ?_⟩
      simp only [SakeFilter.call, if_neg h', if_pos h]

/-- C8, witness: the amended theorem applied to a concrete leaf filter on
a run whose field resolves to an int param. -/
theorem C8_eval_recovery_witness :
    SakeFilter.call ⟨Cmp.eq, "lr", "2"⟩ ⟨"e1", 0, [("lr", PyVal.vInt 3)], Option.none, "c"⟩
      = .ok (applyComp Cmp.eq (PyVal.vInt 3) (try_fallback (typeConvert (PyVal.vInt 3)) "2")) ∧
    (typeConvert (PyVal.vInt 3) "2" = Option.none →
      try_fallback (typeConvert (PyVal.vInt 3)) "2" = .vStr "2") ∧
    (∀ msg, pyComp Cmp.eq (PyVal.vInt 3) (try_fallback (typeConvert (PyVal.vInt 3)) "2") = .error msg →
      applyComp Cmp.eq (PyVal.vInt 3) (try_fallback (typeConvert (PyVal.vInt 3)) "2") = false) ∧
    (∀ (g : SakeFilter) (e' : Experiment),
      g.field = "created" ∨ g.field = "n_checkpoints" →
      ∃ b, SakeFilter.call g e' = .ok b) :=
  C8_eval_recovery ⟨Cmp.eq, "lr", "2"⟩ ⟨"e1", 0, [("lr", PyVal.vInt 3)], Option.none, "c"⟩
    (PyVal.vInt 3) (by decide) (by decide) (by rfl)

/-! ## Machinery for the winning-pair claim (C5): the last element of the
stable ascending sort is the last maximal-key element of the input -/

/-- Last element achieving the maximal key, scanning left to right. -/
def lastArgmax (key : α → Int) : List α → Option α
  | [] => Option.none
  | x :: xs =>
    match lastArgmax key xs with
    | Option.none => some x
    | some y => if key y < key x then some x else some y

/-- Stable insertion never yields the empty list. -/
theorem pyInsert_ne_nil (key : α → Int) (x : α) (s : List α) :
    pyInsert key x s ≠ [] := by
  cases s with
  | nil => simp [pyInsert]
  | cons y ys =>
    simp only [pyInsert]
    split <;> simp

/-- Dropping a head keeps the last element when the tail is nonempty. -/
theorem getLast?_cons_of_ne_nil {a : α} {l : List α} (h : l ≠ []) :
    (a :: l).getLast? = l.getLast? := by
  cases l with
  | nil => exact absurd rfl h
  | cons b t => exact List.getLast?_cons_cons

/-- A nonempty list has a last element. -/
theorem getLast?_isSome_of_cons (a : α) (l : List α) :
    ∃ z, (a :: l).getLast? = some z := by
  induction l generalizing a with
  | nil => exact ⟨a, rfl⟩
  | cons b t ih =>
    obtain ⟨z, hz⟩ := ih b
    exact ⟨z, by rw [List.getLast?_cons_cons, hz]⟩

/-- Membership through stable insertion. -/
theorem pyInsert_mem (key : α → Int) (x b : α) :
    ∀ (s : List α), b ∈ pyInsert key x s → b = x ∨ b ∈ s := by
  intro s
  induction s with
  | nil =>
    intro h
    simp [pyInsert] at h
    exact Or.inl h
  | cons y ys ih =>
    intro h
    simp only [pyInsert] at h
    by_cases hxy : key x ≤ key y
    · rw [if_pos hxy] at h
      rcases List.mem_cons.mp h with h1 | h1
      · exact Or.inl h1
      · exact Or.inr h1
    · rw [if_neg hxy] at h
      rcases List.mem_cons.mp h with h1 | h1
      · exact Or.inr (h1 ▸ List.mem_cons_self y ys)
      · rcases ih h1 with h2 | h2
        · exact Or.inl h2
        · exact Or.inr (List.mem_cons_of_mem y h2)

/-- Stable insertion preserves sortedness by the key. -/
theorem pyInsert_pairwise (key : α → Int) (x : α) :
    ∀ (s : List α), s.Pairwise (fun a b => key a ≤ key b) →
    (pyInsert key x s).Pairwise (fun a b => key a ≤ key b) := by
  intro s
  induction s with
  | nil =>
    intro _
    simp [pyInsert]
  | cons y ys ih =>
    intro hs
    simp only [pyInsert]
    by_cases hxy : key x ≤ key y
    · rw [if_pos hxy]
      refine List.Pairwise.cons ?_ hs
      intro b hb
      rcases List.mem_cons.mp hb with h | h
      · rw [h]
        exact hxy
      · exact le_trans hxy (List.rel_of_pairwise_cons hs h)
    · rw [if_neg hxy]
      refine List.Pairwise.cons ?_ (ih hs.of_cons)
      intro b hb
      rcases pyInsert_mem key x b ys hb with h | h
      · rw [h]
        exact le_of_not_le hxy
      · exact List.rel_of_pairwise_cons hs h

/-- The model of the Python sort produces a key-sorted list. -/
theorem pySorted_pairwise (key : α → Int) : ∀ (l : List α),
    (pySorted key l).Pairwise (fun a b => key a ≤ key b)
  | [] => List.Pairwise.nil
  | x :: xs => pyInsert_pairwise key x _ (pySorted_pairwise key xs)

/-- Last element after inserting into a sorted list: the new element wins
exactly when its key strictly exceeds the old last key (an equal key
keeps the old last element, realising the stable tie-break). -/
theorem pyInsert_getLast (key : α → Int) (x : α) :
    ∀ (s : List α), s.Pairwise (fun a b => key a ≤ key b) →
    (pyInsert key x s).getLast? =
      (match s.getLast? with
       | Option.none => some x
       | some z => if key z < key x then some x else some z) := by
  intro s
  induction s with
  | nil =>
    intro _
    simp [pyInsert]
  | cons y ys ih =>
    intro hs
    simp only [pyInsert]
    by_cases hxy : key x ≤ key y
    · rw [if_pos hxy, List.getLast?_cons_cons]
      obtain ⟨z, hz⟩ := getLast?_isSome_of_cons y ys
      rw [hz]
      have hzmem : z ∈ y :: ys := List.mem_of_mem_getLast? (by rw [hz]; rfl)
      have hxz : key x ≤ key z := by
        rcases List.mem_cons.mp hzmem with h | h
        · rw [← h] at hxy
          exact hxy
        · exact le_trans hxy (List.rel_of_pairwise_cons hs h)
      show some z = if key z < key x then some x else some z
      rw [if_neg (not_lt.mpr hxz)]
    · rw [if_neg hxy]
      cases ys with
      | nil =>
        simp only [pyInsert, List.getLast?_cons_cons, List.getLast?_singleton]
        rw [if_pos (not_le.mp hxy)]
      | cons y2 ys2 =>
        rw [getLast?_cons_of_ne_nil (pyInsert_ne_nil key x (y2 :: ys2)),
          ih hs.of_cons, List.getLast?_cons_cons]

/-- The last element of the stable ascending sort is the last maximal-key
element of the input list. -/
theorem pySorted_getLast (key : α → Int) : ∀ (l : List α),
    (pySorted key l).getLast? = lastArgmax key l
  | [] => rfl
  | x :: xs => by
    have h := pyInsert_getLast key x (pySorted key xs) (pySorted_pairwise key xs)
    rw [show pySorted key (x :: xs) = pyInsert key x (pySorted key xs) from rfl, h,
      pySorted_getLast key xs]
    rfl

/-- Characterisation of lastArgmax: it returns an element of the list
whose key bounds every key, strictly bounding the keys of all later
elements (so among maximal keys the last occurrence wins). -/
theorem lastArgmax_spec (key : α → Int) : ∀ (l : List α), l ≠ [] →
    ∃ (k : Nat) (w : α), lastArgmax key l = some w ∧ l.get? k = some w ∧
      (∀ j b, l.get? j = some b → key b ≤ key w) ∧
      (∀ j b, l.get? j = some b → k < j → key b < key w) := by
  intro l
  induction l with
  | nil =>
    intro h
    exact absurd rfl h
  | cons x xs ih =>
    intro _
    by_cases hxs : xs = []
    · subst hxs
      refine ⟨0, x, rfl, rfl, ?_, ?_⟩
      · intro j b hj
        cases j with
        | zero =>
          rw [List.get?_cons_zero] at hj
          injection hj with h
          rw [← h]
        | succ j => simp at hj
      · intro j b hj hk
        cases j with
        | zero => omega
        | succ j => simp at hj
    · obtain ⟨k, w, hlam, hget, hle, hlt⟩ := ih hxs
      by_cases hwx : key w < key x
      · refine ⟨0, x, ?_, rfl, ?_, ?_⟩
        · simp only [lastArgmax, hlam]
          rw [if_pos hwx]
        · intro j b hj
          cases j with
          | zero =>
            rw [List.get?_cons_zero] at hj
            injection hj with h
            rw [← h]
          | succ j =>
            rw [List.get?_cons_succ] at hj
            exact le_of_lt (lt_of_le_of_lt (hle j b hj) hwx)
        · intro j b hj h0
          cases j with
          | zero => omega
          | succ j =>
            rw [List.get?_cons_succ] at hj
            exact lt_of_le_of_lt (hle j b hj) hwx
      · refine ⟨k + 1, w, ?_, ?_, ?_, ?_⟩
        · simp only [lastArgmax, hlam]
          rw [if_neg hwx]
        · rw [List.get?_cons_succ]
          exact hget
        · intro j b hj
          cases j with
          | zero =>
            rw [List.get?_cons_zero] at hj
            injection hj with h
            rw [← h]
            exact not_lt.mp hwx
          | succ j =>
            rw [List.get?_cons_succ] at hj
            exact hle j b hj
        · intro j b hj hk
          cases j with
          | zero => omega
          | succ j =>
            rw [List.get?_cons_succ] at hj
            exact hlt j b hj (by omega)

/-- Count of checkpoints nominating a given (name, goal) pair. -/
def countPrimary (cps : List Checkpoint) (p : String × String) : Nat :=
  (cps.filter (fun c => c.primaryPair == p)).length

/-- Count stored in a tally dict for a pair (0 when absent). -/
def lookupCount (l : List ((String × String) × Nat)) (q : String × String) : Nat :=
  match l.find? (fun p => p.1 == q) with
  | some p => p.2
  | Option.none => 0

/-- Keys of a tally dict in insertion order. -/
def keysOf (l : List ((String × String) × Nat)) : List (String × String) :=
  l.map Prod.fst

/-- Unfolding lookupCount over a cons cell. -/
theorem lookupCount_cons (p : (String × String) × Nat)
    (rest : List ((String × String) × Nat)) (q : String × String) :
    lookupCount (p :: rest) q = if p.1 = q then p.2 else lookupCount rest q := by
  by_cases h : p.1 = q
  · have hf : List.find? (fun r => r.1 == q) (p :: rest) = some p :=
      List.find?_cons_of_pos _ (by simp [h])
    rw [if_pos h]
    simp only [lookupCount, hf]
  · have hf : List.find? (fun r => r.1 == q) (p :: rest)
        = List.find? (fun r => r.1 == q) rest :=
      List.find?_cons_of_neg _ (by simp [h])
    rw [if_neg h]
    simp only [lookupCount, hf]

/-- A tally update increments exactly the inserted key. -/
theorem tallyInsert_lookup (q k : String × String) :
    ∀ (acc : List ((String × String) × Nat)),
    lookupCount (tallyInsert acc k) q
      = lookupCount acc q + (if q = k then 1 else 0) := by
  intro acc
  induction acc with
  | nil =>
    simp only [tallyInsert]
    by_cases hqk : q = k
    · rw [if_pos hqk, lookupCount_cons, if_pos hqk.symm]
      simp [lookupCount]
    · rw [if_neg hqk, lookupCount_cons,
        if_neg (fun h => hqk h.symm)]
      omega
  | cons p rest ih =>
    simp only [tallyInsert]
    by_cases hpk : p.1 = k
    · rw [if_pos hpk, lookupCount_cons, lookupCount_cons]
      by_cases hqp : p.1 = q
      · rw [if_pos hqp, if_pos hqp]
        rw [if_pos (by rw [← hqp, hpk])]
      · rw [if_neg hqp, if_neg hqp,
          if_neg (fun h => hqp (by rw [hpk, ← h]))]
        omega
    · rw [if_neg hpk, lookupCount_cons, lookupCount_cons]
      by_cases hqp : p.1 = q
      · rw [if_pos hqp, if_pos hqp,
          if_neg (fun h => hpk (by rw [hqp, h]))]
        omega
      · rw [if_neg hqp, if_neg hqp, ih]

/-- The tally built over any accumulator adds the occurrence counts of
the scanned checkpoints. -/
theorem tally_foldl_lookup (q : String × String) :
    ∀ (cps : List Checkpoint) (acc : List ((String × String) × Nat)),
    lookupCount (cps.foldl (fun a c => tallyInsert a c.primaryPair) acc) q
      = lookupCount acc q + countPrimary cps q := by
  intro cps
  induction cps with
  | nil =>
    intro acc
    simp [countPrimary]
  | cons c rest ih =>
    intro acc
    simp only [List.foldl_cons]
    rw [ih, tallyInsert_lookup]
    have hfc : countPrimary (c :: rest) q
        = (if c.primaryPair = q then 1 else 0) + countPrimary rest q := by
      simp only [countPrimary, List.filter_cons]
      by_cases h : c.primaryPair = q
      · simp only [h, beq_self_eq_true, if_true, List.length_cons]
        omega
      · simp [h]
    rw [hfc]
    by_cases h : c.primaryPair = q
    · rw [if_pos h, if_pos h.symm]
      omega
    · rw [if_neg h, if_neg (fun h2 => h h2.symm)]
      omega

/-- The tally records exactly the occurrence count of every pair. -/
theorem tally_lookup (cps : List Checkpoint) (q : String × String) :
    lookupCount (tally cps) q = countPrimary cps q := by
  have h := tally_foldl_lookup q cps []
  simpa [tally, lookupCount] using h

/-- Keys produced by a tally update. -/
theorem tallyInsert_keys_mem (k q : String × String) :
    ∀ (acc : List ((String × String) × Nat)),
    q ∈ keysOf (tallyInsert acc k) → q ∈ keysOf acc ∨ q = k := by
  intro acc
  induction acc with
  | nil =>
    intro h
    simp [tallyInsert, keysOf] at h
    exact Or.inr h
  | cons p rest ih =>
    intro h
    simp only [tallyInsert] at h
    by_cases hpk : p.1 = k
    · rw [if_pos hpk] at h
      simp only [keysOf, List.map_cons] at h ⊢
      exact Or.inl h
    · rw [if_neg hpk] at h
      simp only [keysOf, List.map_cons, List.mem_cons] at h ⊢
      rcases h with h | h
      · exact Or.inl (Or.inl h)
      · rcases ih h with h2 | h2
        · exact Or.inl (Or.inr h2)
        · exact Or.inr h2

/-- A tally update keeps the keys duplicate-free. -/
theorem tallyInsert_keys_nodup (k : String × String) :
    ∀ (acc : List ((String × String) × Nat)),
    (keysOf acc).Nodup → (keysOf (tallyInsert acc k)).Nodup := by
  intro acc
  induction acc with
  | nil =>
    intro _
    simp [tallyInsert, keysOf]
  | cons p rest ih =>
    intro hnd
    simp only [keysOf, List.map_cons, List.nodup_cons] at hnd
    simp only [tallyInsert]
    by_cases hpk : p.1 = k
    · rw [if_pos hpk]
      simp only [keysOf, List.map_cons, List.nodup_cons]
      exact hnd
    · rw [if_neg hpk]
      simp only [keysOf, List.map_cons, List.nodup_cons]
      refine ⟨?_, ih hnd.2⟩
      intro hmem
      rcases tallyInsert_keys_mem k p.1 rest hmem with h | h
      · exact hnd.1 h
      · exact hpk h

/-- The tally dict has duplicate-free keys. -/
theorem tally_keys_nodup (cps : List Checkpoint) : (keysOf (tally cps)).Nodup := by
  suffices h : ∀ (l : List Checkpoint) (acc : List ((String × String) × Nat)),
      (keysOf acc).Nodup →
      (keysOf (l.foldl (fun a c => tallyInsert a c.primaryPair) acc)).Nodup by
    exact h cps [] (by simp [keysOf])
  intro l
  induction l with
  | nil =>
    intro acc h
    exact h
  | cons c rest ih =>
    intro acc h
    exact ih _ (tallyInsert_keys_nodup _ acc h)

/-- Under duplicate-free keys, the entry found at an index is the looked
up count. -/
theorem lookupCount_of_get? :
    ∀ (l : List ((String × String) × Nat)) (j : Nat) (q : String × String) (m : Nat),
    (keysOf l).Nodup → l.get? j = some (q, m) → lookupCount l q = m := by
  intro l
  induction l with
  | nil =>
    intro j q m _ hj
    simp at hj
  | cons p rest ih =>
    intro j q m hnd hj
    cases j with
    | zero =>
      rw [List.get?_cons_zero] at hj
      injection hj with h
      subst h
      rw [lookupCount_cons, if_pos rfl]
    | succ j =>
      rw [List.get?_cons_succ] at hj
      have hmem : (q, m) ∈ rest := List.get?_mem hj
      have hq : q ∈ keysOf rest := by
        simp only [keysOf, List.mem_map]
        exact ⟨(q, m), hmem, rfl⟩
      simp only [keysOf, List.map_cons, List.nodup_cons] at hnd
      have hne : p.1 ≠ q := fun hcontra => hnd.1 (hcontra ▸ hq)
      rw [lookupCount_cons, if_neg hne]
      exact ih j q m hnd.2 hj

/-- A tally update is never empty. -/
theorem tallyInsert_ne_nil (acc : List ((String × String) × Nat))
    (k : String × String) : tallyInsert acc k ≠ [] := by
  cases acc with
  | nil => simp [tallyInsert]
  | cons p rest =>
    simp only [tallyInsert]
    split <;> simp

/-- The tally of a nonempty checkpoint list is nonempty. -/
theorem tally_ne_nil (cps : List Checkpoint) (h : cps ≠ []) : tally cps ≠ [] := by
  suffices hgen : ∀ (l : List Checkpoint) (acc : List ((String × String) × Nat)),
      acc ≠ [] → l.foldl (fun a c => tallyInsert a c.primaryPair) acc ≠ [] by
    cases cps with
    | nil => exact absurd rfl h
    | cons c rest =>
      exact hgen rest (tallyInsert [] c.primaryPair) (tallyInsert_ne_nil [] _)
  intro l
  induction l with
  | nil =>
    intro acc h
    exact h
  | cons c rest ih =>
    intro acc h
    exact ih _ (tallyInsert_ne_nil acc _)

/-- C5: for every nonempty checkpoint sequence the selector picks as the
authoritative (metric name, goal) pair an entry of the tally whose count
is the occurrence count of that pair over all checkpoints, no pair occurs
more often, and among equal counts the entry encountered last in the
tally accumulation order wins (every other entry with the same count sits
earlier in the tally). -/
theorem C5_winning_pair (cps : List Checkpoint) (h : cps ≠ []) :
    ∃ (k : Nat) (p : String × String) (n : Nat),
      winningPair cps = some (p, n) ∧
      (tally cps).get? k = some (p, n) ∧
      n = countPrimary cps p ∧
      (∀ q : String × String, countPrimary cps q ≤ n) ∧
      (∀ (j : Nat) (q : String × String) (m : Nat),
        (tally cps).get? j = some (q, m) → m = n → j ≤ k) := by
  have htne : tally cps ≠ [] := tally_ne_nil cps h
  obtain ⟨k, w, hlam, hget, hle, hlt⟩ :=
    lastArgmax_spec (fun p => (p.2 : Int)) (tally cps) htne
  obtain ⟨p, n⟩ := w
  refine ⟨k, p, n, ?_, hget, ?_, ?_, ?_⟩
  · unfold winningPair
    rw [pySorted_getLast]
    exact hlam
  · have h1 := lookupCount_of_get? (tally cps) k p n (tally_keys_nodup cps) hget
    rw [← tally_lookup]
    exact h1.symm
  · intro q
    rw [← tally_lookup cps q]
    unfold lookupCount
    cases hf : (tally cps).find? (fun r => r.1 == q) with
    | none => exact Nat.zero_le n
    | some r =>
      have hmem : r ∈ tally cps := List.mem_of_find?_eq_some hf
      obtain ⟨j, hj⟩ := List.get?_of_mem hmem
      have hler := hle j r hj
      exact_mod_cast hler
  · intro j q m hj hm
    by_contra hcon
    push_neg at hcon
    have hstrict := hlt j (q, m) hj hcon
    rw [hm] at hstrict
    exact absurd hstrict (lt_irrefl _)

/-- C5, witness: the winning-pair theorem applied to a concrete
three-checkpoint run in which the pairs (a, maximize) and (b, maximize)
each occur once and twice. -/
theorem C5_winning_pair_witness :
    ∃ (k : Nat) (p : String × String) (n : Nat),
      winningPair [⟨0, [], "a", "maximize"⟩, ⟨1, [], "b", "maximize"⟩,
          ⟨2, [], "b", "maximize"⟩] = some (p, n) ∧
      (tally [⟨0, [], "a", "maximize"⟩, ⟨1, [], "b", "maximize"⟩,
          ⟨2, [], "b", "maximize"⟩]).get? k = some (p, n) ∧
      n = countPrimary [⟨0, [], "a", "maximize"⟩, ⟨1, [], "b", "maximize"⟩,
          ⟨2, [], "b", "maximize"⟩] p ∧
      (∀ q : String × String, countPrimary [⟨0, [], "a", "maximize"⟩,
          ⟨1, [], "b", "maximize"⟩, ⟨2, [], "b", "maximize"⟩] q ≤ n) ∧
      (∀ (j : Nat) (q : String × String) (m : Nat),
        (tally [⟨0, [], "a", "maximize"⟩, ⟨1, [], "b", "maximize"⟩,
            ⟨2, [], "b", "maximize"⟩]).get? j = some (q, m) → m = n → j ≤ k) :=
  C5_winning_pair
    [⟨0, [], "a", "maximize"⟩, ⟨1, [], "b", "maximize"⟩, ⟨2, [], "b", "maximize"⟩]
    (by decide)

/-! ## Machinery for the extremal-selection claim (C6) -/

/-- Numeric value of a checkpoint metric, when present and numeric. -/
def numValOf (c : Checkpoint) (name : String) : Option Rat :=
  (dictGet c.metrics name).bind PyVal.asNum

/-- On numeric operands the Python comparison never raises and agrees
with the rational order. -/
theorem pyRichLt_num (a b : PyVal) (x y : Rat)
    (ha : a.asNum = some x) (hb : b.asNum = some y) :
    pyRichLt a b = .ok (decide (x < y)) := by
  cases a with
  | vInt i =>
    cases b with
    | vInt j =>
      simp only [PyVal.asNum, Option.some.injEq] at ha hb
      subst ha
      subst hb
      simp only [pyRichLt, Except.ok.injEq]
      rw [decide_eq_decide]
      exact Int.cast_lt.symm
    | vFloat g =>
      simp only [PyVal.asNum, Option.some.injEq] at ha hb
      subst ha
      subst hb
      rfl
    | vNone => simp [PyVal.asNum] at hb
    | vStr _ => simp [PyVal.asNum] at hb
    | vDt _ => simp [PyVal.asNum] at hb
  | vFloat f =>
    cases b with
    | vInt j =>
      simp only [PyVal.asNum, Option.some.injEq] at ha hb
      subst ha
      subst hb
      rfl
    | vFloat g =>
      simp only [PyVal.asNum, Option.some.injEq] at ha hb
      subst ha
      subst hb
      rfl
    | vNone => simp [PyVal.asNum] at hb
    | vStr _ => simp [PyVal.asNum] at hb
    | vDt _ => simp [PyVal.asNum] at hb
  | vNone => simp [PyVal.asNum] at ha
  | vStr _ => simp [PyVal.asNum] at ha
  | vDt _ => simp [PyVal.asNum] at ha

/-- Invariant of the maximize scan loop: starting from a numeric running
best at an index before the scan head, on all-numeric checkpoints the
loop succeeds and returns the first occurrence of the maximal value among
the running best and the scanned metrics. -/
theorem bestLoop_max_spec (name : String) :
    ∀ (rest : List Checkpoint) (best : PyVal) (q : Rat) (bidx i : Nat),
    best.asNum = some q → bidx < i →
    (∀ c ∈ rest, ∃ w : Rat, numValOf c name = some w) →
    ∃ (b : PyVal) (r : Rat) (k : Nat),
      bestLoop "maximize" name best bidx i rest = .ok (b, k) ∧
      b.asNum = some r ∧ q ≤ r ∧
      ((k = bidx ∧ b = best) ∨
        (∃ (j : Nat) (c : Checkpoint), rest.get? j = some c ∧ k = i + j ∧
          numValOf c name = some r ∧ q < r)) ∧
      (∀ (j : Nat) (c : Checkpoint) (w : Rat), rest.get? j = some c →
        numValOf c name = some w → w ≤ r ∧ (i + j < k → w < r)) := by
  intro rest
  induction rest with
  | nil =>
    intro best q bidx i hq _ _
    refine ⟨best, q, bidx, rfl, hq, le_refl q, Or.inl ⟨rfl, rfl⟩, ?_⟩
    intro j c w hj
    simp at hj
  | cons c rest' ih =>
    intro best q bidx i hq hbi hnum
    obtain ⟨w, hw⟩ := hnum c (List.mem_cons_self c rest')
    obtain ⟨pv, hpv, hpw⟩ := Option.bind_eq_some.mp hw
    have hcmp := pyRichLt_num best pv q w hq hpw
    simp only [bestLoop, if_pos rfl, hpv, hcmp]
    by_cases hlt : q < w
    · rw [decide_eq_true hlt]
      obtain ⟨b, r, k, heq, hbr, hwr, hdisj, hall⟩ :=
        ih pv w i (i + 1) hpw (Nat.lt_succ_self i)
          (fun c' hc' => hnum c' (List.mem_cons_of_mem c hc'))
      refine ⟨b, r, k, heq, hbr, le_of_lt (lt_of_lt_of_le hlt hwr), ?_, ?_⟩
      · rcases hdisj with ⟨hk, hb⟩ | ⟨j, c', hj, hk, hval, hstrict⟩
        · refine Or.inr ⟨0, c, rfl, by omega, ?_, ?_⟩
          · rw [hb] at hbr
            rw [hpw] at hbr
            injection hbr with hr
            rw [hr] at hw
            exact hw
          · rw [hb] at hbr
            rw [hpw] at hbr
            injection hbr with hr
            rw [← hr]
            exact hlt
        · refine Or.inr ⟨j + 1, c', ?_, by omega, hval, lt_trans hlt hstrict⟩
          rw [List.get?_cons_succ]
          exact hj
      · intro j c2 w2 hj hval2
        cases j with
        | zero =>
          rw [List.get?_cons_zero] at hj
          injection hj with hc2
          rw [← hc2] at hval2
          rw [hw] at hval2
          injection hval2 with hw2
          rw [← hw2]
          refine ⟨hwr, ?_⟩
          intro hik
          rcases hdisj with ⟨hk, _⟩ | ⟨_, _, _, hk, _, hstrict⟩
          · omega
          · exact hstrict
        | succ j =>
          rw [List.get?_cons_succ] at hj
          have h2 := hall j c2 w2 hj hval2
          exact ⟨h2.1, fun hik => h2.2 (by omega)⟩
    · rw [decide_eq_false hlt]
      obtain ⟨b, r, k, heq, hbr, hwr, hdisj, hall⟩ :=
        ih best q bidx (i + 1) hq (by omega)
          (fun c' hc' => hnum c' (List.mem_cons_of_mem c hc'))
      refine ⟨b, r, k, heq, hbr, hwr, ?_, ?_⟩
      · rcases hdisj with ⟨hk, hb⟩ | ⟨j, c', hj, hk, hval, hstrict⟩
        · exact Or.inl ⟨hk, hb⟩
        · refine Or.inr ⟨j + 1, c', ?_, by omega, hval, hstrict⟩
          rw [List.get?_cons_succ]
          exact hj
      · intro j c2 w2 hj hval2
        cases j with
        | zero =>
          rw [List.get?_cons_zero] at hj
          injection hj with hc2
          rw [← hc2] at hval2
          rw [hw] at hval2
          injection hval2 with hw2
          rw [← hw2]
          have hwq : w ≤ q := not_lt.mp hlt
          refine ⟨le_trans hwq hwr, ?_⟩
          intro hik
          rcases hdisj with ⟨hk, _⟩ | ⟨_, _, _, hk, _, hstrict⟩
          · omega
          · exact lt_of_le_of_lt hwq hstrict
        | succ j =>
          rw [List.get?_cons_succ] at hj
          have h2 := hall j c2 w2 hj hval2
          exact ⟨h2.1, fun hik => h2.2 (by omega)⟩

/-- Invariant of the minimize scan loop, mirroring bestLoop_max_spec:
the loop succeeds and returns the first occurrence of the minimal value
among the running best and the scanned metrics. -/
theorem bestLoop_min_spec (name : String) :
    ∀ (rest : List Checkpoint) (best : PyVal) (q : Rat) (bidx i : Nat),
    best.asNum = some q → bidx < i →
    (∀ c ∈ rest, ∃ w : Rat, numValOf c name = some w) →
    ∃ (b : PyVal) (r : Rat) (k : Nat),
      bestLoop "minimize" name best bidx i rest = .ok (b, k) ∧
      b.asNum = some r ∧ r ≤ q ∧
      ((k = bidx ∧ b = best) ∨
        (∃ (j : Nat) (c : Checkpoint), rest.get? j = some c ∧ k = i + j ∧
          numValOf c name = some r ∧ r < q)) ∧
      (∀ (j : Nat) (c : Checkpoint) (w : Rat), rest.get? j = some c →
        numValOf c name = some w → r ≤ w ∧ (i + j < k → r < w)) := by
  intro rest
  induction rest with
  | nil =>
    intro best q bidx i hq _ _
    refine ⟨best, q, bidx, rfl, hq, le_refl q, Or.inl ⟨rfl, rfl⟩, ?_⟩
    intro j c w hj
    simp at hj
  | cons c rest' ih =>
    intro best q bidx i hq hbi hnum
    obtain ⟨w, hw⟩ := hnum c (List.mem_cons_self c rest')
    obtain ⟨pv, hpv, hpw⟩ := Option.bind_eq_some.mp hw
    have hcmp := pyRichLt_num pv best w q hpw hq
    simp only [bestLoop, if_neg (by decide : ¬ ("minimize" = "maximize")),
      if_pos rfl, hpv, hcmp]
    by_cases hlt : w < q
    · rw [decide_eq_true hlt]
      obtain ⟨b, r, k, heq, hbr, hwr, hdisj, hall⟩ :=
        ih pv w i (i + 1) hpw (Nat.lt_succ_self i)
          (fun c' hc' => hnum c' (List.mem_cons_of_mem c hc'))
      refine ⟨b, r, k, heq, hbr, le_of_lt (lt_of_le_of_lt hwr hlt), ?_, ?_⟩
      · rcases hdisj with ⟨hk, hb⟩ | ⟨j, c', hj, hk, hval, hstrict⟩
        · refine Or.inr ⟨0, c, rfl, by omega, ?_, ?_⟩
          · rw [hb] at hbr
            rw [hpw] at hbr
            injection hbr with hr
            rw [hr] at hw
            exact hw
          · rw [hb] at hbr
            rw [hpw] at hbr
            injection hbr with hr
            rw [← hr]
            exact hlt
        · refine Or.inr ⟨j + 1, c', ?_, by omega, hval, lt_trans hstrict hlt⟩
          rw [List.get?_cons_succ]
          exact hj
      · intro j c2 w2 hj hval2
        cases j with
        | zero =>
          rw [List.get?_cons_zero] at hj
          injection hj with hc2
          rw [← hc2] at hval2
          rw [hw] at hval2
          injection hval2 with hw2
          rw [← hw2]
          refine ⟨hwr, ?_⟩
          intro hik
          rcases hdisj with ⟨hk, _⟩ | ⟨_, _, _, hk, _, hstrict⟩
          · omega
          · exact hstrict
        | succ j =>
          rw [List.get?_cons_succ] at hj
          have h2 := hall j c2 w2 hj hval2
          exact ⟨h2.1, fun hik => h2.2 (by omega)⟩
    · rw [decide_eq_false hlt]
      obtain ⟨b, r, k, heq, hbr, hwr, hdisj, hall⟩ :=
        ih best q bidx (i + 1) hq (by omega)
          (fun c' hc' => hnum c' (List.mem_cons_of_mem c hc'))
      refine ⟨b, r, k, heq, hbr, hwr, ?_, ?_⟩
      · rcases hdisj with ⟨hk, hb⟩ | ⟨j, c', hj, hk, hval, hstrict⟩
        · exact Or.inl ⟨hk, hb⟩
        · refine Or.inr ⟨j + 1, c', ?_, by omega, hval, hstrict⟩
          rw [List.get?_cons_succ]
          exact hj
      · intro j c2 w2 hj hval2
        cases j with
        | zero =>
          rw [List.get?_cons_zero] at hj
          injection hj with hc2
          rw [← hc2] at hval2
          rw [hw] at hval2
          injection hval2 with hw2
          rw [← hw2]
          have hwq : q ≤ w := not_lt.mp hlt
          refine ⟨le_trans hwr hwq, ?_⟩
          intro hik
          rcases hdisj with ⟨hk, _⟩ | ⟨_, _, _, hk, _, hstrict⟩
          · omega
          · exact lt_of_lt_of_le hstrict hwq
        | succ j =>
          rw [List.get?_cons_succ] at hj
          have h2 := hall j c2 w2 hj hval2
          exact ⟨h2.1, fun hik => h2.2 (by omega)⟩

/-- Folding the tally over checkpoints that all nominate one pair just
adds their number to that pair's count. -/
theorem tally_foldl_const (n g : String) :
    ∀ (cps : List Checkpoint) (m : Nat),
    (∀ c ∈ cps, c.primaryPair = (n, g)) →
    cps.foldl (fun acc c => tallyInsert acc c.primaryPair) [((n, g), m)]
      = [((n, g), m + cps.length)] := by
  intro cps
  induction cps with
  | nil =>
    intro m _
    simp
  | cons c rest ih =>
    intro m hall
    simp only [List.foldl_cons]
    have hc : c.primaryPair = (n, g) := hall c (List.mem_cons_self c rest)
    have hti : tallyInsert [((n, g), m)] c.primaryPair = [((n, g), m + 1)] := by
      simp only [tallyInsert]
      rw [if_pos hc.symm]
    rw [hti, ih (m + 1) (fun c' hc' => hall c' (List.mem_cons_of_mem c hc'))]
    rw [List.length_cons]
    have harith : m + 1 + rest.length = m + (rest.length + 1) := by omega
    rw [harith]

/-- The tally of a nonempty run whose checkpoints all nominate one pair
is the singleton entry carrying the run length. -/
theorem tally_const (n g : String) (cps : List Checkpoint) (hne : cps ≠ [])
    (hall : ∀ c ∈ cps, c.primaryPair = (n, g)) :
    tally cps = [((n, g), cps.length)] := by
  cases cps with
  | nil => exact absurd rfl hne
  | cons c rest =>
    have hc : c.primaryPair = (n, g) := hall c (List.mem_cons_self c rest)
    simp only [tally, List.foldl_cons]
    have h0 : tallyInsert [] c.primaryPair = [((n, g), 1)] := by
      simp [tallyInsert, hc]
    rw [h0, tally_foldl_const n g rest 1 (fun c' hc' => hall c' (List.mem_cons_of_mem c hc'))]
    rw [List.length_cons]
    have harith : 1 + rest.length = rest.length + 1 := by omega
    rw [harith]

/-- C6: on every nonempty checkpoint sequence whose checkpoints all
nominate the same single (metric name, goal) pair with a recognised goal
and numeric values for that metric, the selector returns that metric name
together with the checkpoint whose value is extremal under the goal
(maximal for maximize, minimal for minimize), and among equal extremal
values the earliest-occurring checkpoint wins (every earlier checkpoint
is strictly worse). -/
theorem C6_select_extremal (cps : List Checkpoint) (n g : String)
    (hne : cps ≠ [])
    (hprim : ∀ c ∈ cps, c.primaryPair = (n, g))
    (hg : g = "maximize" ∨ g = "minimize")
    (hnum : ∀ c ∈ cps, ∃ q : Rat, numValOf c n = some q) :
    ∃ (k : Nat) (c : Checkpoint) (v : Rat),
      selectBestList cps = .ok (n, c) ∧ cps.get? k = some c ∧
      numValOf c n = some v ∧
      (∀ (j : Nat) (cj : Checkpoint) (w : Rat), cps.get? j = some cj →
        numValOf cj n = some w →
        (g = "maximize" → w ≤ v ∧ (j < k → w < v)) ∧
        (g = "minimize" → v ≤ w ∧ (j < k → v < w))) := by
  have htc := tally_const n g cps hne hprim
  have hwp : winningPair cps = some ((n, g), cps.length) := by
    unfold winningPair
    rw [htc]
    rfl
  cases cps with
  | nil => exact absurd rfl hne
  | cons c0 rest =>
    obtain ⟨q0, hq0⟩ := hnum c0 (List.mem_cons_self c0 rest)
    obtain ⟨pv0, hpv0, hpq0⟩ := Option.bind_eq_some.mp hq0
    have hnumr : ∀ c' ∈ rest, ∃ w : Rat, numValOf c' n = some w :=
      fun c' hc' => hnum c' (List.mem_cons_of_mem c0 hc')
    rcases hg with hgoal | hgoal
    all_goals subst hgoal
    · obtain ⟨b, r, k, heq, hbr, hq0r, hdisj, hall⟩ :=
        bestLoop_max_spec n rest pv0 q0 0 1 hpq0 Nat.zero_lt_one hnumr
      rcases hdisj with ⟨hk, hb⟩ | ⟨j, c', hj, hk, hval, hstrict⟩
      · subst hk
        have hr : r = q0 := by
          rw [hb, hpq0] at hbr
          injection hbr with h
          exact h.symm
        refine ⟨0, c0, r, ?_, rfl, by rw [hr]; exact hq0, ?_⟩
        · simp only [selectBestList, hwp, hpv0, heq]
          rfl
        · intro j cj w hj hw
          refine ⟨fun _ => ?_, fun hmm => absurd hmm (by decide)⟩
          cases j with
          | zero =>
            rw [List.get?_cons_zero] at hj
            injection hj with h
            rw [← h, hq0] at hw
            injection hw with h2
            rw [← h2, hr]
            exact ⟨le_refl _, fun hcon => absurd hcon (Nat.not_lt_zero 0)⟩
          | succ j =>
            rw [List.get?_cons_succ] at hj
            exact ⟨(hall j cj w hj hw).1, fun hcon => absurd hcon (Nat.not_lt_zero _)⟩
      · have hk' : k = j + 1 := by omega
        refine ⟨j + 1, c', r, ?_, ?_, hval, ?_⟩
        · simp only [selectBestList, hwp, hpv0, heq]
          rw [hk', List.get?_cons_succ, hj]
        · rw [List.get?_cons_succ]
          exact hj
        · intro j2 cj w hj2 hw
          refine ⟨fun _ => ?_, fun hmm => absurd hmm (by decide)⟩
          cases j2 with
          | zero =>
            rw [List.get?_cons_zero] at hj2
            injection hj2 with h
            rw [← h, hq0] at hw
            injection hw with h2
            rw [← h2]
            exact ⟨le_of_lt hstrict, fun _ => hstrict⟩
          | succ j2 =>
            rw [List.get?_cons_succ] at hj2
            have h2 := hall j2 cj w hj2 hw
            exact ⟨h2.1, fun hcon => h2.2 (by omega)⟩
    · obtain ⟨b, r, k, heq, hbr, hq0r, hdisj, hall⟩ :=
        bestLoop_min_spec n rest pv0 q0 0 1 hpq0 Nat.zero_lt_one hnumr
      rcases hdisj with ⟨hk, hb⟩ | ⟨j, c', hj, hk, hval, hstrict⟩
      · subst hk
        have hr : r = q0 := by
          rw [hb, hpq0] at hbr
          injection hbr with h
          exact h.symm
        refine ⟨0, c0, r, ?_, rfl, by rw [hr]; exact hq0, ?_⟩
        · simp only [selectBestList, hwp, hpv0, heq]
          rfl
        · intro j cj w hj hw
          refine ⟨fun hmm => absurd hmm (by decide), fun _ => ?_⟩
          cases j with
          | zero =>
            rw [List.get?_cons_zero] at hj
            injection hj with h
            rw [← h, hq0] at hw
            injection hw with h2
            rw [← h2, hr]
            exact ⟨le_refl _, fun hcon => absurd hcon (Nat.not_lt_zero 0)⟩
          | succ j =>
            rw [List.get?_cons_succ] at hj
            exact ⟨(hall j cj w hj hw).1, fun hcon => absurd hcon (Nat.not_lt_zero _)⟩
      · have hk' : k = j + 1 := by omega
        refine ⟨j + 1, c', r, ?_, ?_, hval, ?_⟩
        · simp only [selectBestList, hwp, hpv0, heq]
          rw [hk', List.get?_cons_succ, hj]
        · rw [List.get?_cons_succ]
          exact hj
        · intro j2 cj w hj2 hw
          refine ⟨fun hmm => absurd hmm (by decide), fun _ => ?_⟩
          cases j2 with
          | zero =>
            rw [List.get?_cons_zero] at hj2
            injection hj2 with h
            rw [← h, hq0] at hw
            injection hw with h2
            rw [← h2]
            exact ⟨le_of_lt hstrict, fun _ => hstrict⟩
          | succ j2 =>
            rw [List.get?_cons_succ] at hj2
            have h2 := hall j2 cj w hj2 hw
            exact ⟨h2.1, fun hcon => h2.2 (by omega)⟩

/-- C6, witness: the extremal-selection theorem applied to a concrete
maximize run with metric values 1, 3, 3, whose best is the earliest 3. -/
theorem C6_select_extremal_witness :
    ∃ (k : Nat) (c : Checkpoint) (v : Rat),
      selectBestList [⟨0, [("acc", PyVal.vInt 1)], "acc", "maximize"⟩,
          ⟨1, [("acc", PyVal.vInt 3)], "acc", "maximize"⟩,
          ⟨2, [("acc", PyVal.vInt 3)], "acc", "maximize"⟩] = .ok ("acc", c) ∧
      ([⟨0, [("acc", PyVal.vInt 1)], "acc", "maximize"⟩,
          ⟨1, [("acc", PyVal.vInt 3)], "acc", "maximize"⟩,
          ⟨2, [("acc", PyVal.vInt 3)], "acc", "maximize"⟩] : List Checkpoint).get? k
        = some c ∧
      numValOf c "acc" = some v ∧
      (∀ (j : Nat) (cj : Checkpoint) (w : Rat),
        ([⟨0, [("acc", PyVal.vInt 1)], "acc", "maximize"⟩,
            ⟨1, [("acc", PyVal.vInt 3)], "acc", "maximize"⟩,
            ⟨2, [("acc", PyVal.vInt 3)], "acc", "maximize"⟩] : List Checkpoint).get? j
          = some cj →
        numValOf cj "acc" = some w →
        ("maximize" = "maximize" → w ≤ v ∧ (j < k → w < v)) ∧
        ("maximize" = "minimize" → v ≤ w ∧ (j < k → v < w))) :=
  C6_select_extremal
    [⟨0, [("acc", PyVal.vInt 1)], "acc", "maximize"⟩,
      ⟨1, [("acc", PyVal.vInt 3)], "acc", "maximize"⟩,
      ⟨2, [("acc", PyVal.vInt 3)], "acc", "maximize"⟩] "acc" "maximize"
    (by decide)
    (by intro c hc; fin_cases hc <;> rfl)
    (Or.inl rfl)
    (by intro c hc; fin_cases hc <;> exact ⟨_, rfl⟩)
